import Mathlib

/-!
Verification of the logrus Firehose hook (`hook.go`, the variant with
per-record stream-name resolution, ignore fields and custom filters).

The Go code is shallowly embedded: `interface{}` field values become the
inductive `GoValue`, `logrus.Fields` (a `map[string]interface{}`) becomes an
association list with string keys, the AWS Firehose `PutRecord` call becomes
an injected capability `PutRecordInput → Option String` returning the error
(`none` models a `nil` error), and `[]byte` payloads produced by `getData`
become a structural `Payload` (`none` models the `nil` slice returned when
`json.Marshal` fails).
-/

namespace LogrusFirehose

/-- Embedding of a Go `interface{}` value as it can appear in a logrus field
map.  The constructors record which interfaces the underlying concrete Go type
implements: `vError` implements `error`, `vStringer` implements
`fmt.Stringer`, `vMarshaler` implements `json.Marshaler`, and the combined
constructors model concrete types implementing two of those interfaces at
once (legal and common in Go).  `vUnserializable` models a value that
`json.Marshal` rejects (a channel, a function, a cyclic structure ...). -/
inductive GoValue : Type
  | vString (s : String)
  | vInt (n : Int)
  | vBool (b : Bool)
  | vNil
  | vError (msg : String)
  | vStringer (desc : String)
  | vErrorStringer (msg desc : String)
  | vMarshaler (js : String)
  | vMarshalerError (js msg : String)
  | vMarshalerStringer (js desc : String)
  | vUnserializable
deriving DecidableEq, Repr

/-- Does the dynamic type of the value satisfy `case json.Marshaler:` of the
type switch in `formatData`? -/
def GoValue.implementsJsonMarshaler : GoValue → Bool
  | .vMarshaler _ => true
  | .vMarshalerError _ _ => true
  | .vMarshalerStringer _ _ => true
  | _ => false

/-- Does the dynamic type of the value satisfy `case error:` of the type
switch in `formatData`? -/
def GoValue.implementsError : GoValue → Bool
  | .vError _ => true
  | .vErrorStringer _ _ => true
  | .vMarshalerError _ _ => true
  | _ => false

/-- The string returned by the value's `Error()` method (meaningful only when
`implementsError` holds; Go would not compile the call otherwise). -/
def GoValue.errorMessage : GoValue → String
  | .vError m => m
  | .vErrorStringer m _ => m
  | .vMarshalerError _ m => m
  | _ => ""

/-- Does the dynamic type of the value satisfy `case fmt.Stringer:` of the
type switch in `formatData`? -/
def GoValue.implementsStringer : GoValue → Bool
  | .vStringer _ => true
  | .vErrorStringer _ _ => true
  | .vMarshalerStringer _ _ => true
  | _ => false

/-- The string returned by the value's `String()` method (meaningful only when
`implementsStringer` holds). -/
def GoValue.stringerString : GoValue → String
  | .vStringer d => d
  | .vErrorStringer _ d => d
  | .vMarshalerStringer _ d => d
  | _ => ""

/-- Can `json.Marshal` serialize the value?  Everything except the explicitly
unserializable values can. -/
def GoValue.serializable : GoValue → Bool
  | .vUnserializable => false
  | _ => true

/-- Embedding of `formatData` (hook.go): a Go type switch, tried in source
order — `json.Marshaler` first, then `error`, then `fmt.Stringer`, with a
pass-through default. -/
def formatData (value : GoValue) : GoValue :=
  if value.implementsJsonMarshaler then value
  else if value.implementsError then .vString value.errorMessage
  else if value.implementsStringer then .vString value.stringerString
  else value

/-- Embedding of `logrus.Level`.  The Go type is an integer enumeration; only
identity of levels matters here. -/
inductive LogLevel : Type
  | panicLevel
  | fatalLevel
  | errorLevel
  | warnLevel
  | infoLevel
  | debugLevel
  | traceLevel
deriving DecidableEq, Repr

/-- Embedding of `logrus.Fields` (`map[string]interface{}`) as an association
list; Go map keys are unique, which the claims below do not depend on. -/
abbrev Fields := List (String × GoValue)

/-- Lookup of a key in an association list, mirroring a Go map read: `none`
models the zero value returned for an absent key. -/
def lookupKey {β : Type} (k : String) : List (String × β) → Option β
  | [] => none
  | p :: rest => if p.1 = k then some p.2 else lookupKey k rest

/-- Embedding of `logrus.Entry`: the parts of the entry the hook reads. -/
structure Entry : Type where
  message : String
  level : LogLevel
  data : Fields

/-- Embedding of the `FirehoseHook` struct.  The `*firehose.Firehose` client
is not a field here; the remote call it provides is passed to `fire`/`Fire`
as an explicit capability instead. -/
structure FirehoseHook : Type where
  defaultStreamName : String
  defaultPartitionKey : String
  async : Bool
  levels : Option (List LogLevel)
  ignoreFields : List String
  filters : List (String × (GoValue → GoValue))
  addNewline : Bool

/-- Embedding of `Levels`: returns the hook's configured level slice (`none`
models a nil slice). -/
def Levels (h : FirehoseHook) : Option (List LogLevel) :=
  h.levels

/-- Embedding of `SetLevels`: overwrites the hook's level slice. -/
def SetLevels (h : FirehoseHook) (levels : Option (List LogLevel)) : FirehoseHook :=
  { h with levels := levels }

/-- Embedding of `Async`: sets the async flag. -/
def Async (h : FirehoseHook) : FirehoseHook :=
  { h with async := true }

/-- Embedding of `AddIgnore`: inserts a field name into the ignore set
(`h.ignoreFields[name] = struct{}{}`); list membership models set
membership. -/
def AddIgnore (h : FirehoseHook) (name : String) : FirehoseHook :=
  { h with ignoreFields := name :: h.ignoreFields }

/-- Embedding of `AddFilter`: registers a custom filter function for a field
name (`h.filters[name] = fn`); consing models the map update because
`lookupKey` returns the most recent binding. -/
def AddFilter (h : FirehoseHook) (name : String) (fn : GoValue → GoValue) : FirehoseHook :=
  { h with filters := (name, fn) :: h.filters }

/-- Embedding of `getStreamName`: the comma-ok type assertion
`entry.Data["stream_name"].(string)` succeeds exactly when the key is present
with a value of dynamic type `string`; otherwise the hook's default stream
name is returned. -/
def getStreamName (h : FirehoseHook) (entry : Entry) : String :=
  match lookupKey "stream_name" entry.data with
  | some (GoValue.vString name) => name
  | _ => h.defaultStreamName

/-- The `range entry.Data` loop body of `getData`, one field at a time: a
field is dropped if its name is in the ignore set, transformed by the
registered filter if one exists, and otherwise normalized by `formatData`. -/
def processFields (h : FirehoseHook) : Fields → Fields
  | [] => []
  | kv :: rest =>
    if kv.1 ∈ h.ignoreFields then processFields h rest
    else match lookupKey kv.1 h.filters with
      | some fn => (kv.1, fn kv.2) :: processFields h rest
      | none => (kv.1, formatData kv.2) :: processFields h rest

/-- The field map that `getData` builds and hands to `json.Marshal`. -/
def getDataFields (h : FirehoseHook) (entry : Entry) : Fields :=
  processFields h entry.data

/-- Structural stand-in for the `[]byte` slice `getData` returns: the
marshaled key/value structure plus whether a trailing newline was appended. -/
structure Payload : Type where
  fields : Fields
  newline : Bool
deriving DecidableEq

/-- Embedding of `json.Marshal` on the built field map: marshaling a Go map
fails exactly when some value in it cannot be serialized, and on failure
`getData` returns the nil slice (`none`). -/
def jsonMarshal (data : Fields) : Option Fields :=
  if data.all (fun kv => kv.2.serializable) then some data else none

/-- Embedding of `getData`: marshal the processed field map; on marshal error
return nil, otherwise append a newline iff `addNewline` is set. -/
def getData (h : FirehoseHook) (entry : Entry) : Option Payload :=
  match jsonMarshal (getDataFields h entry) with
  | none => none
  | some fields => some { fields := fields, newline := h.addNewline }

/-- Embedding of `firehose.PutRecordInput` as built by `fire`: the resolved
delivery stream name and the record data (`none` models a nil byte slice). -/
structure PutRecordInput : Type where
  deliveryStreamName : String
  data : Option Payload
deriving DecidableEq

/-- The capability standing in for `h.client.PutRecord`: the returned
`Option String` is the error (`none` is a nil error). -/
abbrev PutRecord := PutRecordInput → Option String

/-- The `PutRecordInput` that `fire` constructs for an entry. -/
def fireInput (h : FirehoseHook) (entry : Entry) : PutRecordInput :=
  { deliveryStreamName := getStreamName h entry, data := getData h entry }

/-- Embedding of the lower-case `fire`: build the input and return exactly
the error `PutRecord` produces. -/
def fire (h : FirehoseHook) (putRecord : PutRecord) (entry : Entry) : Option String :=
  putRecord (fireInput h entry)

/-- Embedding of `Fire`: synchronous mode calls `fire` inline and returns its
error; async mode starts `go h.fire(entry)` and returns nil. -/
def Fire (h : FirehoseHook) (putRecord : PutRecord) (entry : Entry) : Option String :=
  if !h.async then fire h putRecord entry
  else none

/-- Statement-level re-embedding of the `range entry.Data` loop in `getData`,
threading the entry through every iteration so that a mutation of
`entry.Data` (which `logrus.Entry` being passed by pointer would allow in Go)
would be visible as a changed entry in the result.  Each iteration only reads
the entry and writes the freshly made local `data` map. -/
def getDataLoopMut (h : FirehoseHook) : Fields → Entry → Fields → Fields × Entry
  | [], entry, data => (data, entry)
  | kv :: rest, entry, data =>
    if kv.1 ∈ h.ignoreFields then getDataLoopMut h rest entry data
    else match lookupKey kv.1 h.filters with
      | some fn => getDataLoopMut h rest entry (data ++ [(kv.1, fn kv.2)])
      | none => getDataLoopMut h rest entry (data ++ [(kv.1, formatData kv.2)])

/-- Entry-threading version of `getData`: returns the payload together with
the entry as left behind by the loop. -/
def getDataMut (h : FirehoseHook) (entry : Entry) : Option Payload × Entry :=
  let p := getDataLoopMut h entry.data entry []
  match jsonMarshal p.1 with
  | none => (none, p.2)
  | some fields => (some { fields := fields, newline := h.addNewline }, p.2)

/-- Entry-threading version of `fire`: the entry is read twice (stream name
resolution and formatting) and never written. -/
def fireMut (h : FirehoseHook) (putRecord : PutRecord) (entry : Entry) : Option String × Entry :=
  let d := getDataMut h entry
  (putRecord { deliveryStreamName := getStreamName h d.2, data := d.1 }, d.2)

/-- Entry-threading version of `Fire`: in async mode the goroutine still runs
`fire` over the entry, so its effect on the entry (none) is accounted for. -/
def FireMut (h : FirehoseHook) (putRecord : PutRecord) (entry : Entry) : Option String × Entry :=
  if !h.async then fireMut h putRecord entry
  else (none, (fireMut h putRecord entry).2)

/-- Modelled from the spec: the repository's batching variant (Intake Queue +
Batch Assembler, spec §4.4) is not among the source files, so the drain loop
is taken from the spec's algorithm: start an empty batch of capacity
`sendBatchSize`; repeatedly pull one record from the queue without blocking,
format it and append it; stop as soon as the batch reaches `sendBatchSize`,
the queue is empty, or the shared tick fires.  `cap` is the remaining batch
capacity and `tickBudget` the number of pulls the timer still allows before
the tick fires. -/
def assembleGo (format : Entry → Option Payload) :
    Nat → Nat → List Entry → List (Option Payload) × List Entry
  | _, 0, queue => ([], queue)
  | 0, _ + 1, queue => ([], queue)
  | _ + 1, _ + 1, [] => ([], [])
  | c + 1, t + 1, r :: queue =>
    let rest := assembleGo format c t queue
    (format r :: rest.1, rest.2)

/-- Modelled from the spec: one assembler cycle — the batch built for
dispatch together with the records left in the queue. -/
def assembleBatch (format : Entry → Option Payload) (sendBatchSize tickBudget : Nat)
    (queue : List Entry) : List (Option Payload) × List Entry :=
  assembleGo format sendBatchSize tickBudget queue

/-- Concrete filter function used to instantiate `AddFilter`-related
statements: replaces any value by a fixed string. -/
def redactFn : GoValue → GoValue :=
  fun _ => GoValue.vString "redacted"

/-! Theorems for the claims. -/

/-- Helper: a key occurs in the processed field map exactly when it occurs in
the input fields and is not in the ignore set. -/
theorem keys_processFields (h : FirehoseHook) (l : Fields) (k : String) :
    k ∈ (processFields h l).map Prod.fst ↔
      k ∈ l.map Prod.fst ∧ k ∉ h.ignoreFields := by
  induction l with
  | nil => simp [processFields]
  | cons kv rest ih =>
    rw [processFields]
    by_cases hig : kv.1 ∈ h.ignoreFields
    · rw [if_pos hig, ih, List.map_cons, List.mem_cons]
      constructor
      · rintro ⟨h1, h2⟩
        exact ⟨Or.inr h1, h2⟩
      · rintro ⟨rfl | h1, h2⟩
        · exact absurd hig h2
        · exact ⟨h1, h2⟩
    · rw [if_neg hig]
      cases hfn : lookupKey kv.1 h.filters with
      | some fn =>
        rw [List.map_cons, List.mem_cons, List.map_cons, List.mem_cons, ih]
        constructor
        · rintro (rfl | ⟨h1, h2⟩)
          · exact ⟨Or.inl rfl, hig⟩
          · exact ⟨Or.inr h1, h2⟩
        · rintro ⟨rfl | h1, h2⟩
          · exact Or.inl rfl
          · exact Or.inr ⟨h1, h2⟩
      | none =>
        rw [List.map_cons, List.mem_cons, List.map_cons, List.mem_cons, ih]
        constructor
        · rintro (rfl | ⟨h1, h2⟩)
          · exact ⟨Or.inl rfl, hig⟩
          · exact ⟨Or.inr h1, h2⟩
        · rintro ⟨rfl | h1, h2⟩
          · exact Or.inl rfl
          · exact Or.inr ⟨h1, h2⟩

/-- Helper: when a filter is registered for a non-ignored key, the processed
field map binds that key to the filter applied to its original value. -/
theorem lookup_processFields (h : FirehoseHook) (l : Fields) (F : String)
    (fn : GoValue → GoValue) (v : GoValue)
    (hfn : lookupKey F h.filters = some fn) (hig : F ∉ h.ignoreFields)
    (hv : lookupKey F l = some v) :
    lookupKey F (processFields h l) = some (fn v) := by
  induction l with
  | nil => simp [lookupKey] at hv
  | cons kv rest ih =>
    by_cases hk : kv.1 = F
    · subst hk
      have hv2 : v = kv.2 := by
        rw [lookupKey] at hv
        simp at hv
        exact hv.symm
      subst hv2
      rw [processFields]
      simp [hig, hfn, lookupKey]
    · have hv' : lookupKey F rest = some v := by
        rw [lookupKey] at hv
        simpa [hk] using hv
      by_cases hig2 : kv.1 ∈ h.ignoreFields
      · rw [processFields]
        simp [hig2]
        exact ih hv'
      · rw [processFields]
        cases hfn2 : lookupKey kv.1 h.filters with
        | some fn2 =>
          simp [hig2, lookupKey, hk]
          exact ih hv'
        | none =>
          simp [hig2, lookupKey, hk]
          exact ih hv'

/-- Helper: a successfully marshaled payload carries exactly the processed
field map. -/
theorem getData_fields_eq (h : FirehoseHook) (e : Entry) (out : Payload)
    (hout : getData h e = some out) : out.fields = getDataFields h e := by
  unfold getData jsonMarshal at hout
  by_cases hall : (getDataFields h e).all (fun kv => kv.2.serializable) = true
  · simp [hall] at hout
    rw [← hout]
  · simp [hall] at hout

/-- C1: Fire's return value is determined by the configured mode — with the
async flag unset, `Fire` dispatches the single record inline and returns
exactly the error produced by the remote submission (`none` on success); with
the async flag set, `Fire` returns `none` for every entry, whatever error the
dispatch would later produce. -/
theorem fire_mode_determines_result (h : FirehoseHook) (p : PutRecord) (e : Entry) :
    (h.async = false → Fire h p e = p (fireInput h e)) ∧
    (h.async = true → Fire h p e = none) := by
  constructor <;> intro ha <;> simp [Fire, fire, ha]

/-- C1 witness: a synchronous hook returns the remote error, an asynchronous
hook returns `none` under the same always-failing remote call. -/
theorem fire_mode_determines_result_witness :
    Fire ⟨"s", "", false, none, [], [], false⟩ (fun _ => some "boom")
      ⟨"msg", LogLevel.infoLevel, []⟩ = some "boom" ∧
    Fire ⟨"s", "", true, none, [], [], false⟩ (fun _ => some "boom")
      ⟨"msg", LogLevel.infoLevel, []⟩ = none :=
  ⟨((fire_mode_determines_result ⟨"s", "", false, none, [], [], false⟩
      (fun _ => some "boom") ⟨"msg", LogLevel.infoLevel, []⟩).1 rfl).trans rfl,
   (fire_mode_determines_result ⟨"s", "", true, none, [], [], false⟩
      (fun _ => some "boom") ⟨"msg", LogLevel.infoLevel, []⟩).2 rfl⟩

/-- C2: destination resolution — a `stream_name` field holding a string `s`
(the empty string included) resolves to `s`; an absent key, or a value of any
non-string dynamic type, resolves to the hook's configured default stream
name; with no default configured that field is the empty string, so the
resolved destination is empty. -/
theorem stream_name_resolution (h : FirehoseHook) (e : Entry) :
    (∀ s, lookupKey "stream_name" e.data = some (GoValue.vString s) →
      getStreamName h e = s) ∧
    (∀ v, lookupKey "stream_name" e.data = some v →
      (∀ s, v ≠ GoValue.vString s) → getStreamName h e = h.defaultStreamName) ∧
    (lookupKey "stream_name" e.data = none → getStreamName h e = h.defaultStreamName) := by
  refine ⟨?_, ?_, ?_⟩
  · intro s hs
    simp [getStreamName, hs]
  · intro v hv hne
    cases v <;> simp [getStreamName, hv]
    exact absurd rfl (hne _)
  · intro h0
    simp [getStreamName, h0]

/-- C2 witness: a string override wins (even when empty), a numeric value and
an absent key fall back to the default, and an empty default yields the empty
string. -/
theorem stream_name_resolution_witness :
    getStreamName ⟨"default_stream", "", false, none, [], [], false⟩
      ⟨"m", LogLevel.infoLevel, [("stream_name", GoValue.vString "entry_stream")]⟩ =
      "entry_stream" ∧
    getStreamName ⟨"default_stream", "", false, none, [], [], false⟩
      ⟨"m", LogLevel.infoLevel, [("stream_name", GoValue.vString "")]⟩ = "" ∧
    getStreamName ⟨"default_stream", "", false, none, [], [], false⟩
      ⟨"m", LogLevel.infoLevel, [("stream_name", GoValue.vInt 99999)]⟩ =
      "default_stream" ∧
    getStreamName ⟨"default_stream", "", false, none, [], [], false⟩
      ⟨"m", LogLevel.infoLevel, []⟩ = "default_stream" ∧
    getStreamName ⟨"", "", false, none, [], [], false⟩
      ⟨"m", LogLevel.infoLevel, [("stream_name", GoValue.vNil)]⟩ = "" :=
  ⟨(stream_name_resolution ⟨"default_stream", "", false, none, [], [], false⟩
      ⟨"m", LogLevel.infoLevel, [("stream_name", GoValue.vString "entry_stream")]⟩).1
      "entry_stream" (by decide),
   (stream_name_resolution ⟨"default_stream", "", false, none, [], [], false⟩
      ⟨"m", LogLevel.infoLevel, [("stream_name", GoValue.vString "")]⟩).1 "" (by decide),
   ((stream_name_resolution ⟨"default_stream", "", false, none, [], [], false⟩
      ⟨"m", LogLevel.infoLevel, [("stream_name", GoValue.vInt 99999)]⟩).2.1
      (GoValue.vInt 99999) (by decide) (fun s => by simp)).trans rfl,
   ((stream_name_resolution ⟨"default_stream", "", false, none, [], [], false⟩
      ⟨"m", LogLevel.infoLevel, []⟩).2.2 rfl).trans rfl,
   ((stream_name_resolution ⟨"", "", false, none, [], [], false⟩
      ⟨"m", LogLevel.infoLevel, [("stream_name", GoValue.vNil)]⟩).2.1
      GoValue.vNil (by decide) (fun s => by simp)).trans rfl⟩

/-- C8: `SetLevels` followed by `Levels` round-trips for every level slice,
the nil sentinel (`none`) included, and the result of one hook instance does
not depend on another instance's configured levels (each equation holds for
arbitrary other instances and sets). -/
theorem set_levels_roundtrip (h h' : FirehoseHook) (L L' : Option (List LogLevel)) :
    Levels (SetLevels h L) = L ∧
    Levels (SetLevels h' L') = L' ∧
    Levels (SetLevels h none) = none :=
  ⟨rfl, rfl, rfl⟩

/-- C10: the `json.Marshaler` case of `formatData` precedes the `error` and
`fmt.Stringer` cases — a value implementing both `json.Marshaler` and
`error` (or both `json.Marshaler` and `fmt.Stringer`) passes through
unchanged instead of being replaced by its message or description. -/
theorem marshaler_precedence (j m d : String) :
    GoValue.implementsJsonMarshaler (GoValue.vMarshalerError j m) = true ∧
    GoValue.implementsError (GoValue.vMarshalerError j m) = true ∧
    formatData (GoValue.vMarshalerError j m) = GoValue.vMarshalerError j m ∧
    GoValue.implementsJsonMarshaler (GoValue.vMarshalerStringer j d) = true ∧
    GoValue.implementsStringer (GoValue.vMarshalerStringer j d) = true ∧
    formatData (GoValue.vMarshalerStringer j d) = GoValue.vMarshalerStringer j d :=
  ⟨rfl, rfl, rfl, rfl, rfl, rfl⟩

/-- C4 counterexample: the value modelled by `vMarshalerError "42" "boom"`
implements `error` with message `boom`, yet `formatData` does not replace it
by that message — the `json.Marshaler` case of the type switch fires first,
contradicting the claim that every error value is replaced by its message
text. -/
theorem format_error_not_replaced :
    GoValue.implementsError (GoValue.vMarshalerError "42" "boom") = true ∧
    GoValue.errorMessage (GoValue.vMarshalerError "42" "boom") = "boom" ∧
    formatData (GoValue.vMarshalerError "42" "boom") ≠ GoValue.vString "boom" := by
  refine ⟨rfl, rfl, ?_⟩
  decide

/-- C4 (amended): default value normalization tries the type-switch cases in
source order — a self-serializable (`json.Marshaler`) value passes through
unchanged; otherwise an error value is replaced by its message text;
otherwise a describable (`fmt.Stringer`) value is replaced by its
description; any other value passes through unchanged. -/
theorem formatData_default_normalization (v : GoValue) :
    (v.implementsJsonMarshaler = true → formatData v = v) ∧
    (v.implementsJsonMarshaler = false → v.implementsError = true →
      formatData v = GoValue.vString v.errorMessage) ∧
    (v.implementsJsonMarshaler = false → v.implementsError = false →
      v.implementsStringer = true → formatData v = GoValue.vString v.stringerString) ∧
    (v.implementsJsonMarshaler = false → v.implementsError = false →
      v.implementsStringer = false → formatData v = v) := by
  cases v <;>
    simp [formatData, GoValue.implementsJsonMarshaler, GoValue.implementsError,
      GoValue.implementsStringer, GoValue.errorMessage, GoValue.stringerString]

/-- C4 witness: a plain error value is replaced by its message, a plain
stringer by its description, and a plain string passes through. -/
theorem formatData_default_normalization_witness :
    formatData (GoValue.vError "boom") = GoValue.vString "boom" ∧
    formatData (GoValue.vStringer "desc") = GoValue.vString "desc" ∧
    formatData (GoValue.vString "plain") = GoValue.vString "plain" :=
  ⟨((formatData_default_normalization (GoValue.vError "boom")).2.1 rfl rfl).trans rfl,
   ((formatData_default_normalization (GoValue.vStringer "desc")).2.2.1
      rfl rfl rfl).trans rfl,
   (formatData_default_normalization (GoValue.vString "plain")).2.2.2 rfl rfl rfl⟩

/-- C3: when serialization of the processed field map fails (a value that
`json.Marshal` rejects is present), `getData` returns the nil payload, and
the `PutRecordInput` that `fire` submits carries no record data — the
record's content is not transmitted, it is dropped silently at the
formatting stage. -/
theorem format_failure_drops_record (h : FirehoseHook) (e : Entry)
    (hbad : ∃ kv ∈ getDataFields h e, kv.2.serializable = false) :
    getData h e = none ∧
    fireInput h e = { deliveryStreamName := getStreamName h e, data := none } := by
  have hall : (getDataFields h e).all (fun kv => kv.2.serializable) = false := by
    obtain ⟨kv, hmem, hser⟩ := hbad
    rw [List.all_eq_false]
    exact ⟨kv, hmem, by simp [hser]⟩
  have hnone : getData h e = none := by
    simp [getData, jsonMarshal, hall]
  exact ⟨hnone, by simp [fireInput, hnone]⟩

/-- C3 witness: an entry holding an unserializable value yields a nil payload
and a submitted record with no data. -/
theorem format_failure_drops_record_witness :
    getData ⟨"default_stream", "", false, none, [], [], false⟩
      ⟨"m", LogLevel.infoLevel, [("bad", GoValue.vUnserializable)]⟩ = none ∧
    fireInput ⟨"default_stream", "", false, none, [], [], false⟩
      ⟨"m", LogLevel.infoLevel, [("bad", GoValue.vUnserializable)]⟩ =
      { deliveryStreamName := "default_stream", data := none } :=
  ⟨(format_failure_drops_record ⟨"default_stream", "", false, none, [], [], false⟩
      ⟨"m", LogLevel.infoLevel, [("bad", GoValue.vUnserializable)]⟩
      ⟨("bad", GoValue.vUnserializable), by decide, rfl⟩).1,
   ((format_failure_drops_record ⟨"default_stream", "", false, none, [], [], false⟩
      ⟨"m", LogLevel.infoLevel, [("bad", GoValue.vUnserializable)]⟩
      ⟨("bad", GoValue.vUnserializable), by decide, rfl⟩).2).trans rfl⟩

/-- C5: a field name in the hook's ignore set never appears as a key of the
processed field map, hence never as a key of the serialized output, while a
field present in the entry and not in the ignore set is retained. -/
theorem ignore_set_excluded (h : FirehoseHook) (name : String) (e : Entry)
    (hmem : name ∈ h.ignoreFields) :
    name ∉ (getDataFields h e).map Prod.fst ∧
    (∀ out, getData h e = some out → name ∉ out.fields.map Prod.fst) ∧
    (∀ k, k ∈ e.data.map Prod.fst → k ∉ h.ignoreFields →
      k ∈ (getDataFields h e).map Prod.fst) ∧
    (∀ k, k ∈ e.data.map Prod.fst → k ∉ h.ignoreFields →
      ∀ out, getData h e = some out → k ∈ out.fields.map Prod.fst) := by
  refine ⟨?_, ?_, ?_, ?_⟩
  · intro hcontra
    exact ((keys_processFields h e.data name).mp hcontra).2 hmem
  · intro out hout hcontra
    rw [getData_fields_eq h e out hout] at hcontra
    exact ((keys_processFields h e.data name).mp hcontra).2 hmem
  · intro k hk hkig
    exact (keys_processFields h e.data k).mpr ⟨hk, hkig⟩
  · intro k hk hkig out hout
    rw [getData_fields_eq h e out hout]
    exact (keys_processFields h e.data k).mpr ⟨hk, hkig⟩

/-- C5 witness: with `password` ignored, the processed output of an entry
carrying `password` and `user` drops the former and keeps the latter. -/
theorem ignore_set_excluded_witness :
    "password" ∉ (getDataFields ⟨"s", "", false, none, ["password"], [], false⟩
      ⟨"m", LogLevel.infoLevel,
        [("password", GoValue.vString "x"), ("user", GoValue.vString "bob")]⟩).map
      Prod.fst ∧
    "user" ∈ (getDataFields ⟨"s", "", false, none, ["password"], [], false⟩
      ⟨"m", LogLevel.infoLevel,
        [("password", GoValue.vString "x"), ("user", GoValue.vString "bob")]⟩).map
      Prod.fst :=
  ⟨(ignore_set_excluded ⟨"s", "", false, none, ["password"], [], false⟩ "password"
      ⟨"m", LogLevel.infoLevel,
        [("password", GoValue.vString "x"), ("user", GoValue.vString "bob")]⟩
      (by decide)).1,
   (ignore_set_excluded ⟨"s", "", false, none, ["password"], [], false⟩ "password"
      ⟨"m", LogLevel.infoLevel,
        [("password", GoValue.vString "x"), ("user", GoValue.vString "bob")]⟩
      (by decide)).2.2.1 "user" (by decide) (by decide)⟩

/-- C6: for a field name with a registered filter that is not ignored, the
processed field map — and therefore any successfully serialized output —
binds that name to the filter applied to the original value; the default
`formatData` normalization is not applied to it. -/
theorem filter_applied (h : FirehoseHook) (F : String) (fn : GoValue → GoValue)
    (v : GoValue) (e : Entry)
    (hfn : lookupKey F h.filters = some fn)
    (hig : F ∉ h.ignoreFields)
    (hv : lookupKey F e.data = some v) :
    lookupKey F (getDataFields h e) = some (fn v) ∧
    ∀ out, getData h e = some out → lookupKey F out.fields = some (fn v) := by
  have h1 := lookup_processFields h e.data F fn v hfn hig hv
  refine ⟨h1, ?_⟩
  intro out hout
  rw [getData_fields_eq h e out hout]
  exact h1

/-- C6 witness: a registered redacting filter replaces the field's original
value in the processed output. -/
theorem filter_applied_witness :
    lookupKey "password" (getDataFields
      ⟨"s", "", false, none, [], [("password", redactFn)], false⟩
      ⟨"m", LogLevel.infoLevel, [("password", GoValue.vString "hunter2")]⟩) =
      some (GoValue.vString "redacted") :=
  (filter_applied ⟨"s", "", false, none, [], [("password", redactFn)], false⟩
    "password" redactFn (GoValue.vString "hunter2")
    ⟨"m", LogLevel.infoLevel, [("password", GoValue.vString "hunter2")]⟩
    rfl (by decide) rfl).1

/-- C7: a batch assembled in one drain cycle never holds more than the
configured `sendBatchSize` records, whatever the tick budget and queue
contents are. -/
theorem batch_size_bound (format : Entry → Option Payload) (n t : Nat)
    (q : List Entry) :
    (assembleBatch format n t q).1.length ≤ n := by
  unfold assembleBatch
  induction t generalizing n q with
  | zero => simp [assembleGo]
  | succ t ih =>
    cases n with
    | zero => simp [assembleGo]
    | succ c =>
      cases q with
      | nil => simp [assembleGo]
      | cons r rest =>
        rw [assembleGo]
        simpa using ih c rest

/-- C9: the entry is read-only to the hook — threading the entry through
every statement of the formatting loop, of `fire` and of `Fire` returns it
unchanged, and the transformed values land in a freshly made map that equals
`getData`'s result. -/
theorem entry_readonly (h : FirehoseHook) (p : PutRecord) (e : Entry) :
    getDataMut h e = (getData h e, e) ∧
    fireMut h p e = (fire h p e, e) ∧
    (FireMut h p e).2 = e := by
  have hloop : ∀ (l : Fields) (ent : Entry) (data : Fields),
      getDataLoopMut h l ent data = (data ++ processFields h l, ent) := by
    intro l
    induction l with
    | nil =>
      intro ent data
      simp [getDataLoopMut, processFields]
    | cons kv rest ih =>
      intro ent data
      rw [getDataLoopMut, processFields]
      by_cases hig : kv.1 ∈ h.ignoreFields
      · simp [hig, ih]
      · cases hfn : lookupKey kv.1 h.filters with
        | some fn => simp [hig, hfn, ih]
        | none => simp [hig, hfn, ih]
  have hgd : getDataMut h e = (getData h e, e) := by
    rw [getDataMut, hloop e.data e []]
    rw [getData]
    simp only [getDataFields, List.nil_append]
    cases jsonMarshal (processFields h e.data) <;> rfl
  refine ⟨hgd, ?_, ?_⟩
  · rw [fireMut, hgd]
    rfl
  · rw [FireMut]
    by_cases ha : h.async <;> simp [ha, fireMut, hgd]

end LogrusFirehose
